import Mathlib

/-!
Shallow embedding of `src/compiler/generating/llvm.rs` from the Rua compiler:
the `RegisterFormat` type system, `VirtualRegister`/`Constant`/`LLVMValue`
operand model, and the chained-bucket `SymbolTable`, together with theorems
checking the natural-language specification against this embedding.

Rust `Option<Box<SymbolTableNode>>` collision chains are embedded as
`List Symbol` (head of the list = head of the chain, i.e. the most recent
insertion).  Rust `u64` arithmetic in `hash` is embedded as `Nat` arithmetic
with an explicit wrap `% 2 ^ 64` at every operation that the source performs
on `u64` values.
-/

set_option autoImplicit false

namespace Rua

/-- Modelled from the spec: the `Identifier` abstraction is imported by the
source (`use super::{Identifier, Token}`) from the parser, which is not under
`src/`.  Per the spec it is "polymorphic over at least a 'plain name' variant
(carrying a name string) and other non-name variants (e.g. literal/expression
forms)"; the non-name variants are abstracted here into a single `Other`
carrier tagged with its kind. -/
inductive Identifier where
  | Symbol (name : String)
  | Other (kind : String)
deriving DecidableEq, Repr

/-- `RegisterFormat` from the source: recursive type tag for IR operands. -/
inductive RegisterFormat where
  | Void
  | Integer
  | Boolean
  | Identifier (id_type : RegisterFormat)
  | Pointer (pointee : RegisterFormat)
deriving DecidableEq, Repr

/-- Modelled from the spec: `crate::error::Error` is not under `src/`.  The
spec lists three error kinds: undefined symbol (carries the name), invalid
identifier (carries the expected kinds and the kind received), and invalid
assignment (carries the received and expected formats). -/
inductive Error where
  | SymbolUndefined (name : String)
  | InvalidIdentifier (expected : List Identifier) (received : Identifier)
  | InvalidAssignment (received : RegisterFormat) (expected : RegisterFormat)
deriving DecidableEq, Repr

/-- `Constant` from the source: currently only `Integer(i64)`. -/
inductive Constant where
  | Integer (n : Int)
deriving DecidableEq, Repr

/-- `VirtualRegister` from the source: `{id, format}`. -/
structure VirtualRegister where
  id : String
  format : RegisterFormat
deriving DecidableEq, Repr

/-- `LLVMValue` from the source: tagged union over register, constant, none. -/
inductive LLVMValue where
  | VirtualRegister (r : VirtualRegister)
  | Constant (c : Constant)
  | None
deriving DecidableEq, Repr

/-- `Constant::format` from the source. -/
def Constant.format : Constant → RegisterFormat
  | .Integer _ => .Integer

/-- `LLVMValue::format` from the source. -/
def LLVMValue.format : LLVMValue → RegisterFormat
  | .None => .Void
  | .Constant c => c.format
  | .VirtualRegister r => r.format

/-- `Symbol` from the source: a single `Local {name, value}` variant. -/
inductive Symbol where
  | Local (name : String) (value : LLVMValue)
deriving DecidableEq, Repr

/-- `Symbol::name` from the source. -/
def Symbol.name : Symbol → String
  | .Local n _ => n

/-- `Symbol::value` from the source. -/
def Symbol.value : Symbol → LLVMValue
  | .Local _ v => v

/-- `RegisterFormat::to_pointer` from the source. -/
def RegisterFormat.to_pointer (f : RegisterFormat) : RegisterFormat :=
  .Pointer f

/-- `RegisterFormat::format_type` from the source. -/
def RegisterFormat.format_type : RegisterFormat → String
  | .Void => "void"
  | .Identifier id_type => id_type.format_type ++ "*"
  | .Integer => "i64"
  | .Boolean => "i1"
  | .Pointer pointee => pointee.format_type ++ "*"

/-- The derived `PartialEq` on `RegisterFormat` from the source: structural,
recursive equality of the variant trees. -/
def RegisterFormat.structEq : RegisterFormat → RegisterFormat → Bool
  | .Void, .Void => true
  | .Integer, .Integer => true
  | .Boolean, .Boolean => true
  | .Identifier a, .Identifier b => a.structEq b
  | .Pointer a, .Pointer b => a.structEq b
  | _, _ => false

/-- `RegisterFormat::expect` from the source: `self == other` uses the derived
structural equality. -/
def RegisterFormat.expect (self other : RegisterFormat) : Except Error Unit :=
  if self.structEq other then .ok ()
  else .error (.InvalidAssignment other self)

/-- Wrap modulus of Rust `u64` arithmetic. -/
def U64 : Nat := 2 ^ 64

/-- One iteration of the loop in `SymbolTable::hash`: the pair carries
`(hash, pow)`; every `u64` operation wraps at `2 ^ 64` and the source applies
`% len` to the hash sum and to the updated `pow`. -/
def hashStep (len : Nat) (hp : Nat × Nat) (c : Char) : Nat × Nat :=
  (((hp.1 + (((c.toNat % len) * hp.2) % U64)) % U64) % len,
   ((hp.2 * 67) % U64) % len)

/-- The body of `SymbolTable::hash` from the source, as a function of the
bucket count `len` (the source reads `len = self.len()` first). -/
def hashFn (len : Nat) (name : String) : Nat :=
  (name.toList.foldl (hashStep len) (0, 1)).1

/-- `SymbolTable` from the source: a fixed vector of bucket chains. -/
structure SymbolTable where
  buckets : List (List Symbol)
deriving DecidableEq, Repr

namespace SymbolTable

/-- `SymbolTable::new` from the source: `capacity` empty buckets. -/
def new (capacity : Nat) : SymbolTable :=
  ⟨List.replicate capacity []⟩

/-- `SymbolTable::len` from the source: the bucket count (capacity). -/
def len (t : SymbolTable) : Nat :=
  t.buckets.length

/-- `SymbolTable::hash` from the source. -/
def hash (t : SymbolTable) (name : String) : Nat :=
  hashFn t.len name

/-- `SymbolTable::insert` from the source: unconditionally prepend a node to
the bucket selected by `hash`. -/
def insert (t : SymbolTable) (s : Symbol) : SymbolTable :=
  let h := t.hash s.name
  ⟨t.buckets.set h (s :: t.buckets.getD h [])⟩

end SymbolTable

/-- The bucket-chain scan of `SymbolTable::get` (and `get_mut`, whose
traversal is identical): first node whose name equals `name`, else an
undefined-symbol error. -/
def getChain (name : String) : List Symbol → Except Error Symbol
  | [] => .error (.SymbolUndefined name)
  | c :: rest => if name = c.name then .ok c else getChain name rest

/-- The bucket-chain loop of `SymbolTable::remove` from the source.  Branches
in source order: if the current node matches, `*curr` becomes its successor;
else if there is no successor, return; else if the successor matches, the
source executes `*curr = succ.next` (note: this replaces the *current* node,
so the current node is dropped together with the matching successor); else
advance one node. -/
def removeChain (name : String) : List Symbol → List Symbol
  | [] => []
  | c :: rest =>
    if c.name = name then rest
    else
      match rest with
      | [] => c :: rest
      | n :: rest2 =>
        if n.name = name then rest2
        else c :: removeChain name (n :: rest2)

namespace SymbolTable

/-- `SymbolTable::get` from the source. -/
def get (t : SymbolTable) (name : String) : Except Error Symbol :=
  getChain name (t.buckets.getD (t.hash name) [])

/-- `SymbolTable::remove` from the source. -/
def remove (t : SymbolTable) (name : String) : SymbolTable :=
  let h := t.hash name
  ⟨t.buckets.set h (removeChain name (t.buckets.getD h []))⟩

/-- `SymbolTable::create_local` from the source (`&self` is unused there). -/
def create_local (_self : SymbolTable) (name : String) (format : RegisterFormat) :
    Symbol × VirtualRegister :=
  let value : VirtualRegister := ⟨name, format⟩
  (Symbol.Local name (LLVMValue.VirtualRegister value), ⟨name, format.to_pointer⟩)

end SymbolTable

/-- `VirtualRegister::from_identifier` from the source. -/
def VirtualRegister.from_identifier (id : String) (identifier : Identifier)
    (symbol_table : SymbolTable) : Except Error VirtualRegister :=
  match identifier with
  | .Symbol s =>
    match symbol_table.get s with
    | .ok sym => .ok ⟨id, .Identifier sym.value.format⟩
    | .error e => .error e
  | _ => .error (.InvalidIdentifier [.Symbol ""] identifier)

/-- One step of the hash as the specification words it: a pure
stepwise-modular fold, `h = (h + (code(c) mod capacity) * pow) mod capacity`,
`pow = (pow * 67) mod capacity` — with no 64-bit wrap.  This definition
follows the spec text and exists only to be compared with `hashFn`, which is
the source. -/
def specHashStep (capacity : Nat) (hp : Nat × Nat) (c : Char) : Nat × Nat :=
  ((hp.1 + (c.toNat % capacity) * hp.2) % capacity,
   (hp.2 * 67) % capacity)

/-- The hash as the specification words it (see `specHashStep`). -/
def specHash (capacity : Nat) (name : String) : Nat :=
  (name.toList.foldl (specHashStep capacity) (0, 1)).1

namespace SymbolTable

/-- `SymbolTable::hash` with the Rust panic made explicit: on a `u64`, `%`
by zero panics, and the panic is modelled by `none`.  The loop body never
runs for the empty name, so no division happens there. -/
def hashChecked (t : SymbolTable) (name : String) : Option Nat :=
  (name.toList.foldlM
    (fun (hp : Nat × Nat) c =>
      if t.len = 0 then none else some (hashStep t.len hp c))
    ((0, 1) : Nat × Nat)).map Prod.fst

/-- `self.buckets[hash]` with the Rust out-of-bounds panic made explicit. -/
def bucketAt (t : SymbolTable) (h : Nat) : Option (List Symbol) :=
  if h < t.buckets.length then some (t.buckets.getD h []) else none

/-- `SymbolTable::get` with panics made explicit. -/
def getChecked (t : SymbolTable) (name : String) : Option (Except Error Symbol) :=
  (t.hashChecked name).bind fun h => (t.bucketAt h).map fun c => getChain name c

/-- `SymbolTable::get_mut` with panics made explicit; its traversal is the
same scan as `get`, returning the first matching symbol. -/
def getMutChecked (t : SymbolTable) (name : String) : Option (Except Error Symbol) :=
  (t.hashChecked name).bind fun h => (t.bucketAt h).map fun c => getChain name c

/-- `SymbolTable::insert` with panics made explicit. -/
def insertChecked (t : SymbolTable) (s : Symbol) : Option SymbolTable :=
  (t.hashChecked s.name).bind fun h =>
    (t.bucketAt h).map fun c => (⟨t.buckets.set h (s :: c)⟩ : SymbolTable)

/-- `SymbolTable::remove` with panics made explicit. -/
def removeChecked (t : SymbolTable) (name : String) : Option SymbolTable :=
  (t.hashChecked name).bind fun h =>
    (t.bucketAt h).map fun c => (⟨t.buckets.set h (removeChain name c)⟩ : SymbolTable)

end SymbolTable

/-- Writing a new symbol through the mutable reference returned by
`SymbolTable::get_mut`: the first node whose name matches (the `get_mut`
scan) has its symbol replaced in place; the chain structure is untouched. -/
def setChain (name : String) (r : Symbol) : List Symbol → List Symbol
  | [] => []
  | c :: rest => if name = c.name then r :: rest else c :: setChain name r rest

/-- One operation of the `SymbolTable` interface, for stating properties of
arbitrary operation sequences. -/
inductive TableOp where
  | insert (s : Symbol)
  | get (name : String)
  | get_mut (name : String) (replacement : Symbol)
  | remove (name : String)

/-- The state effect of one table operation: `insert` and `remove` as in the
source; `get` borrows immutably (no state change); `get_mut` may be written
through, modelled by `setChain` on the scanned bucket. -/
def SymbolTable.applyOp (t : SymbolTable) : TableOp → SymbolTable
  | .insert s => t.insert s
  | .get _ => t
  | .get_mut n r => ⟨t.buckets.set (t.hash n) (setChain n r (t.buckets.getD (t.hash n) []))⟩
  | .remove n => t.remove n

/-! ## Helper lemmas -/

theorem getD_set_self {α : Type} (l : List α) (i : Nat) (a d : α) (h : i < l.length) :
    (l.set i a).getD i d = a := by
  induction l generalizing i with
  | nil => simp at h
  | cons x xs ih =>
    cases i with
    | zero => rfl
    | succ n => simpa using ih n (by simpa using h)

theorem set_getD_self {α : Type} (l : List α) (i : Nat) (d : α) (h : i < l.length) :
    l.set i (l.getD i d) = l := by
  induction l generalizing i with
  | nil => simp at h
  | cons x xs ih =>
    cases i with
    | zero => simp
    | succ n => simpa using ih n (by simpa using h)

theorem hashFold_fst_lt (len : Nat) (h0 : 0 < len) :
    ∀ (cs : List Char) (hp : Nat × Nat), hp.1 < len →
      (cs.foldl (hashStep len) hp).1 < len
  | [], _, h => h
  | _ :: cs, hp, _ => hashFold_fst_lt len h0 cs (hashStep len hp _) (Nat.mod_lt _ h0)

theorem hashFn_lt (len : Nat) (name : String) (h0 : 0 < len) :
    hashFn len name < len :=
  hashFold_fst_lt len h0 name.toList (0, 1) h0

theorem hash_lt (t : SymbolTable) (name : String) (h0 : 0 < t.len) :
    t.hash name < t.buckets.length :=
  hashFn_lt t.len name h0

theorem len_insert (t : SymbolTable) (s : Symbol) : (t.insert s).len = t.len := by
  simp [SymbolTable.insert, SymbolTable.len]

theorem len_remove (t : SymbolTable) (n : String) : (t.remove n).len = t.len := by
  simp [SymbolTable.remove, SymbolTable.len]

theorem len_new (c : Nat) : (SymbolTable.new c).len = c := by
  simp [SymbolTable.new, SymbolTable.len]

theorem hash_congr_len (t1 t2 : SymbolTable) (n : String) (h : t1.len = t2.len) :
    t1.hash n = t2.hash n := by
  simp [SymbolTable.hash, h]

theorem hashStep_eq_specHashStep (len : Nat) (h0 : 0 < len) (hcap : len ≤ 2 ^ 32)
    (hp : Nat × Nat) (c : Char) (h1 : hp.1 < len) (h2 : hp.2 ≤ len) :
    hashStep len hp c = specHashStep len hp c := by
  obtain ⟨m, rfl⟩ : ∃ m, len = m + 1 := ⟨len - 1, by omega⟩
  have hsq : (m + 1) * (m + 1) ≤ U64 := by
    calc (m + 1) * (m + 1) ≤ 2 ^ 32 * 2 ^ 32 := Nat.mul_le_mul hcap hcap
    _ = U64 := by norm_num [U64]
  have hc : c.toNat % (m + 1) ≤ m := by
    have := Nat.mod_lt c.toNat h0
    omega
  have hprod : (c.toNat % (m + 1)) * hp.2 ≤ m * (m + 1) := Nat.mul_le_mul hc h2
  have hprodU : (c.toNat % (m + 1)) * hp.2 < U64 := by nlinarith
  have hsumU : hp.1 + (c.toNat % (m + 1)) * hp.2 < U64 := by nlinarith
  have hpowU : hp.2 * 67 < U64 := by
    have : hp.2 * 67 ≤ 2 ^ 32 * 67 := Nat.mul_le_mul (le_trans h2 hcap) (le_refl 67)
    have : (2 : Nat) ^ 32 * 67 < U64 := by norm_num [U64]
    omega
  simp only [hashStep, specHashStep, Nat.mod_eq_of_lt hprodU, Nat.mod_eq_of_lt hsumU,
    Nat.mod_eq_of_lt hpowU]

theorem hashFold_eq_specFold (len : Nat) (h0 : 0 < len) (hcap : len ≤ 2 ^ 32) :
    ∀ (cs : List Char) (hp : Nat × Nat), hp.1 < len → hp.2 ≤ len →
      cs.foldl (hashStep len) hp = cs.foldl (specHashStep len) hp := by
  intro cs
  induction cs with
  | nil => intro hp _ _; rfl
  | cons c cs ih =>
    intro hp h1 h2
    have hstep : hashStep len hp c = specHashStep len hp c :=
      hashStep_eq_specHashStep len h0 hcap hp c h1 h2
    have hnew1 : (specHashStep len hp c).1 < len := Nat.mod_lt _ h0
    have hnew2 : (specHashStep len hp c).2 ≤ len := le_of_lt (Nat.mod_lt _ h0)
    calc (c :: cs).foldl (hashStep len) hp
        = cs.foldl (hashStep len) (specHashStep len hp c) := by
          rw [List.foldl_cons, hstep]
      _ = cs.foldl (specHashStep len) (specHashStep len hp c) := ih _ hnew1 hnew2
      _ = (c :: cs).foldl (specHashStep len) hp := (List.foldl_cons _ _).symm

theorem hashFn_eq_specHash (len : Nat) (name : String) (h0 : 0 < len)
    (hcap : len ≤ 2 ^ 32) : hashFn len name = specHash len name := by
  unfold hashFn specHash
  rw [hashFold_eq_specFold len h0 hcap name.toList (0, 1) h0 (by omega)]

theorem removeChain_not_found (n : String) :
    ∀ c : List Symbol, (∀ s ∈ c, s.name ≠ n) → removeChain n c = c := by
  intro c
  induction c with
  | nil => intro _; rfl
  | cons x rest ih =>
    intro h
    have hx : x.name ≠ n := h x (List.mem_cons_self x rest)
    cases rest with
    | nil => simp [removeChain, hx]
    | cons y rest2 =>
      have hy : y.name ≠ n := h y (List.mem_cons_of_mem x (List.mem_cons_self y rest2))
      have hrest : ∀ s ∈ y :: rest2, s.name ≠ n := fun s hs =>
        h s (List.mem_cons_of_mem x hs)
      simp [removeChain, hx, hy, ih hrest]

theorem getChain_error (n : String) :
    ∀ (c : List Symbol) (e : Error), getChain n c = .error e → e = .SymbolUndefined n := by
  intro c
  induction c with
  | nil =>
    intro e h
    simpa [getChain] using h.symm
  | cons s rest ih =>
    intro e h
    unfold getChain at h
    split at h
    · cases h
    · exact ih e h

theorem len_applyOp (t : SymbolTable) (op : TableOp) : (t.applyOp op).len = t.len := by
  cases op <;>
    simp [SymbolTable.applyOp, SymbolTable.insert, SymbolTable.remove, SymbolTable.len]

theorem len_foldOps (ops : List TableOp) :
    ∀ t : SymbolTable, (ops.foldl SymbolTable.applyOp t).len = t.len := by
  induction ops with
  | nil => intro _; rfl
  | cons op ops ih =>
    intro t
    rw [List.foldl_cons, ih, len_applyOp]

theorem structEq_iff (a b : RegisterFormat) : a.structEq b = true ↔ a = b := by
  induction a generalizing b with
  | Void => cases b <;> simp [RegisterFormat.structEq]
  | Integer => cases b <;> simp [RegisterFormat.structEq]
  | Boolean => cases b <;> simp [RegisterFormat.structEq]
  | Identifier x ih => cases b <;> simp [RegisterFormat.structEq, ih]
  | Pointer x ih => cases b <;> simp [RegisterFormat.structEq, ih]

theorem insert_buckets (t : SymbolTable) (s : Symbol) :
    (t.insert s).buckets
      = t.buckets.set (t.hash s.name) (s :: t.buckets.getD (t.hash s.name) []) := rfl

theorem remove_buckets (t : SymbolTable) (n : String) :
    (t.remove n).buckets
      = t.buckets.set (t.hash n) (removeChain n (t.buckets.getD (t.hash n) [])) := rfl

theorem get_eq_getChain (t : SymbolTable) (n : String) :
    t.get n = getChain n (t.buckets.getD (t.hash n) []) := rfl

/-! ## Claim theorems -/

/-- C6: `format_type` returns "void" for `Void`, "i64" for `Integer`,
"i1" for `Boolean`, the pointee's spelling suffixed with "*" for `Pointer`,
and the id_type's spelling suffixed with "*" for `Identifier`; in particular
`Integer.to_pointer.format_type = "i64*"`, `Void.format_type = "void"`, and
`(Identifier Integer).format_type = "i64*"`. -/
theorem c6_format_type :
    RegisterFormat.Void.format_type = "void" ∧
    RegisterFormat.Integer.format_type = "i64" ∧
    RegisterFormat.Boolean.format_type = "i1" ∧
    (∀ p : RegisterFormat,
      (RegisterFormat.Pointer p).format_type = p.format_type ++ "*") ∧
    (∀ t : RegisterFormat,
      (RegisterFormat.Identifier t).format_type = t.format_type ++ "*") ∧
    RegisterFormat.Integer.to_pointer.format_type = "i64*" ∧
    (RegisterFormat.Identifier RegisterFormat.Integer).format_type = "i64*" :=
  ⟨rfl, rfl, rfl, fun _ => rfl, fun _ => rfl, rfl, rfl⟩

/-- C7: `create_local name format` returns the pair of a `Symbol.Local` named
`name` whose value is the virtual register `{id := name, format}` (logical
type), and an independent `VirtualRegister {id := name, format := Pointer
format}` (storage-slot type); both components carry the same textual id. -/
theorem c7_create_local (t : SymbolTable) (n : String) (f : RegisterFormat) :
    t.create_local n f
        = (Symbol.Local n (LLVMValue.VirtualRegister ⟨n, f⟩),
           (⟨n, RegisterFormat.Pointer f⟩ : VirtualRegister)) ∧
    (t.create_local n f).1.name = n ∧
    (t.create_local n f).1.value.format = f ∧
    (t.create_local n f).2.id = n ∧
    (t.create_local n f).2.format = f.to_pointer :=
  ⟨rfl, rfl, rfl, rfl, rfl⟩

/-- C8: `a.expect b` succeeds exactly when `a` and `b` are structurally
(recursively) equal, and otherwise fails with an invalid-assignment error
whose expected field is `a` and whose received field is `b`. -/
theorem c8_expect (a b : RegisterFormat) :
    (a.expect b = .ok () ↔ a = b) ∧
    a.expect b = if a = b then .ok ()
      else .error (.InvalidAssignment b a) := by
  have hiff := structEq_iff a b
  constructor
  · unfold RegisterFormat.expect
    by_cases h : a = b
    · simp [h, (structEq_iff b b).mpr rfl]
    · simp [hiff, h]
  · unfold RegisterFormat.expect
    by_cases h : a = b
    · rw [if_pos ((structEq_iff a b).mpr h), if_pos h]
    · rw [if_neg (fun hc => h ((structEq_iff a b).mp (by simpa using hc))), if_neg h]

/-- C1 (refuted by the code): build the capacity-1 table whose single chain
is `[a, x]` by inserting `x` then `a`; `remove "x"` then empties the chain.
The successor-match branch of the source executes `*curr = succ.next`, which
deletes the scanned node `a` together with the matching node `x`, instead of
splicing only `x` out and leaving `[a]`. -/
theorem c1_remove_deletes_scanned_node :
    (((SymbolTable.new 1).insert (Symbol.Local "x" .None)).insert
        (Symbol.Local "a" .None)).buckets
      = [[Symbol.Local "a" .None, Symbol.Local "x" .None]] ∧
    ((((SymbolTable.new 1).insert (Symbol.Local "x" .None)).insert
        (Symbol.Local "a" .None)).remove "x").buckets
      = [[]] ∧
    removeChain "x" [Symbol.Local "a" .None, Symbol.Local "x" .None] = [] := by
  decide

/-- C4: `from_identifier` on a plain-name identifier fails with an
undefined-symbol error carrying the name when the name is absent from the
table; when the name resolves to a symbol it succeeds with a register whose
format wraps the resolved value's format in `Identifier`; and on any
non-plain-name identifier it fails with an invalid-identifier error carrying
the expected kind and the kind received. -/
theorem c4_from_identifier (id n : String) (t : SymbolTable) :
    (∀ e : Error, t.get n = .error e →
      VirtualRegister.from_identifier id (.Symbol n) t
        = .error (.SymbolUndefined n)) ∧
    (∀ sym : Symbol, t.get n = .ok sym →
      VirtualRegister.from_identifier id (.Symbol n) t
        = .ok ⟨id, .Identifier sym.value.format⟩) ∧
    (∀ other : Identifier, (∀ s : String, other ≠ .Symbol s) →
      VirtualRegister.from_identifier id other t
        = .error (.InvalidIdentifier [.Symbol ""] other)) := by
  have hred : VirtualRegister.from_identifier id (.Symbol n) t
      = match t.get n with
        | .ok sym => .ok ⟨id, .Identifier sym.value.format⟩
        | .error e => .error e := rfl
  refine ⟨?_, ?_, ?_⟩
  · intro e he
    have heq : e = .SymbolUndefined n := getChain_error n _ e he
    subst heq
    rw [hred, he]
  · intro sym hs
    rw [hred, hs]
  · intro other hother
    cases other with
    | Symbol s => exact absurd rfl (hother s)
    | Other k => rfl

/-- Witness for C4: at capacity 1, name "y" absent fails undefined-symbol;
"y" bound at format Boolean resolves to a register of format
`Identifier Boolean`; a non-name identifier fails invalid-identifier. -/
theorem c4_from_identifier_witness :
    VirtualRegister.from_identifier "r" (.Symbol "y") (SymbolTable.new 1)
        = .error (.SymbolUndefined "y") ∧
    VirtualRegister.from_identifier "r" (.Symbol "y")
        ((SymbolTable.new 1).insert
          (Symbol.Local "y" (LLVMValue.VirtualRegister ⟨"y", .Boolean⟩)))
        = .ok ⟨"r", .Identifier .Boolean⟩ ∧
    VirtualRegister.from_identifier "r" (.Other "literal") (SymbolTable.new 1)
        = .error (.InvalidIdentifier [.Symbol ""] (.Other "literal")) :=
  ⟨(c4_from_identifier "r" "y" (SymbolTable.new 1)).1
      (Error.SymbolUndefined "y") rfl,
   (c4_from_identifier "r" "y"
      ((SymbolTable.new 1).insert
        (Symbol.Local "y" (LLVMValue.VirtualRegister ⟨"y", .Boolean⟩)))).2.1
      (Symbol.Local "y" (LLVMValue.VirtualRegister ⟨"y", .Boolean⟩)) rfl,
   (c4_from_identifier "r" "y" (SymbolTable.new 1)).2.2 (.Other "literal")
      (fun _ h => nomatch h)⟩

/-- C5: removing a name that is bound nowhere in its bucket chain is a
no-op: the table (buckets, every chain, and the reported size) is exactly
unchanged, and no error is raised (`remove` returns normally). -/
theorem c5_remove_absent_noop (t : SymbolTable) (n : String) (hcap : 0 < t.len)
    (habs : ∀ s ∈ t.buckets.getD (t.hash n) [], s.name ≠ n) :
    t.remove n = t := by
  have hlt : t.hash n < t.buckets.length := hash_lt t n hcap
  have hb : (t.remove n).buckets = t.buckets := by
    rw [remove_buckets, removeChain_not_found n _ habs, set_getD_self _ _ _ hlt]
  exact congrArg SymbolTable.mk hb

/-- Witness for C5: removing the absent name "b" from a capacity-1 table
holding only "a" leaves the table unchanged. -/
theorem c5_remove_absent_noop_witness :
    ((SymbolTable.new 1).insert (Symbol.Local "a" .None)).remove "b"
      = (SymbolTable.new 1).insert (Symbol.Local "a" .None) :=
  c5_remove_absent_noop _ "b" (by decide) (by decide)

theorem hashChecked_capacity_zero (t : SymbolTable) (h0 : t.len = 0) (n : String) :
    t.hashChecked n = if n = "" then some 0 else none := by
  have hnil : (n = "") ↔ n.toList = [] := by
    cases n with
    | mk l => simp [String.toList, String.ext_iff]
  have hf : (fun (hp : Nat × Nat) (c : Char) =>
        if t.len = 0 then (none : Option (Nat × Nat))
        else some (hashStep t.len hp c))
      = fun _ _ => none := by
    funext hp c
    rw [if_pos h0]
  unfold SymbolTable.hashChecked
  rw [hf]
  rcases hn : n.toList with _ | ⟨c, cs⟩
  · rw [if_pos (hnil.mpr hn)]
    rfl
  · rw [if_neg (fun he => by rw [he] at hn; exact nomatch hn)]
    rfl

theorem bucketAt_capacity_zero (t : SymbolTable) (h0 : t.len = 0) (h : Nat) :
    t.bucketAt h = none := by
  unfold SymbolTable.bucketAt
  rw [if_neg]
  have : t.buckets.length = 0 := h0
  omega

/-- C10 (amended): for a capacity-0 table, `hash` panics by modulo-by-zero
exactly for the non-empty names, while it returns 0 without any division for
the empty name; every table operation (`insert`, `get`, `get_mut`, `remove`)
panics for every name — through the division for non-empty names and through
out-of-bounds bucket indexing for the empty name — so every operation is
well-defined only under the precondition capacity > 0. -/
theorem c10_capacity_zero_panics (t : SymbolTable) (n : String) (h0 : t.len = 0) :
    (t.hashChecked n = none ↔ n ≠ "") ∧
    t.hashChecked "" = some 0 ∧
    t.getChecked n = none ∧
    t.getMutChecked n = none ∧
    t.removeChecked n = none ∧
    (∀ s : Symbol, t.insertChecked s = none) := by
  have hh := hashChecked_capacity_zero t h0
  refine ⟨?_, ?_, ?_, ?_, ?_, ?_⟩
  · rw [hh n]
    by_cases he : n = "" <;> simp [he]
  · rw [hh ""]
    simp
  · unfold SymbolTable.getChecked
    rw [hh n]
    by_cases he : n = "" <;> simp [he, bucketAt_capacity_zero t h0]
  · unfold SymbolTable.getMutChecked
    rw [hh n]
    by_cases he : n = "" <;> simp [he, bucketAt_capacity_zero t h0]
  · unfold SymbolTable.removeChecked
    rw [hh n]
    by_cases he : n = "" <;> simp [he, bucketAt_capacity_zero t h0]
  · intro s
    unfold SymbolTable.insertChecked
    rw [hh s.name]
    by_cases he : s.name = "" <;> simp [he, bucketAt_capacity_zero t h0]

/-- C10 counterexample: on the capacity-0 table, `hash` of the empty name
performs no modulo at all and returns 0 — it does not panic for every name
as the claim states. -/
theorem c10_counterexample_empty_name :
    (SymbolTable.new 0).hashChecked "" = some 0 := by decide

/-- Witness for C10 at the concrete name "abc" on the capacity-0 table. -/
theorem c10_capacity_zero_panics_witness :
    (SymbolTable.new 0).hashChecked "abc" = none ∧
    (SymbolTable.new 0).getChecked "abc" = none ∧
    (SymbolTable.new 0).getMutChecked "abc" = none ∧
    (SymbolTable.new 0).removeChecked "abc" = none ∧
    (SymbolTable.new 0).insertChecked (Symbol.Local "abc" .None) = none :=
  ⟨((c10_capacity_zero_panics (SymbolTable.new 0) "abc" rfl).1).mpr (by decide),
   (c10_capacity_zero_panics (SymbolTable.new 0) "abc" rfl).2.2.1,
   (c10_capacity_zero_panics (SymbolTable.new 0) "abc" rfl).2.2.2.1,
   (c10_capacity_zero_panics (SymbolTable.new 0) "abc" rfl).2.2.2.2.1,
   (c10_capacity_zero_panics (SymbolTable.new 0) "abc" rfl).2.2.2.2.2
      (Symbol.Local "abc" .None)⟩

/-- C2: after insert(x→v1) then insert(x→v2), get(x) returns the v2 entry —
insert unconditionally prepends and never overwrites, so both entries
coexist; after a single remove(x), get(x) returns the v1 entry rather than
an undefined-symbol error. -/
theorem c2_shadowing (t : SymbolTable) (x : String) (v1 v2 : LLVMValue)
    (hcap : 0 < t.len) :
    ((t.insert (Symbol.Local x v1)).insert (Symbol.Local x v2)).get x
        = .ok (Symbol.Local x v2) ∧
    (((t.insert (Symbol.Local x v1)).insert (Symbol.Local x v2)).remove x).get x
        = .ok (Symbol.Local x v1) := by
  have hlt : t.hash x < t.buckets.length := hash_lt t x hcap
  have e1 : (t.insert (Symbol.Local x v1)).hash x = t.hash x :=
    hash_congr_len _ t x (len_insert t _)
  have e2 : ((t.insert (Symbol.Local x v1)).insert (Symbol.Local x v2)).hash x
      = t.hash x :=
    (hash_congr_len _ _ x (len_insert _ _)).trans e1
  have hname1 : (Symbol.Local x v1).name = x := rfl
  have hname2 : (Symbol.Local x v2).name = x := rfl
  have hb1 : (t.insert (Symbol.Local x v1)).buckets
      = t.buckets.set (t.hash x)
          (Symbol.Local x v1 :: t.buckets.getD (t.hash x) []) := by
    rw [insert_buckets, hname1]
  have hlen1 : (t.insert (Symbol.Local x v1)).buckets.length = t.buckets.length := by
    rw [hb1, List.length_set]
  have hg1 : (t.insert (Symbol.Local x v1)).buckets.getD (t.hash x) []
      = Symbol.Local x v1 :: t.buckets.getD (t.hash x) [] := by
    rw [hb1]
    exact getD_set_self _ _ _ _ hlt
  have hb2 : ((t.insert (Symbol.Local x v1)).insert (Symbol.Local x v2)).buckets
      = (t.insert (Symbol.Local x v1)).buckets.set (t.hash x)
          (Symbol.Local x v2 :: Symbol.Local x v1 :: t.buckets.getD (t.hash x) []) := by
    rw [insert_buckets, hname2, e1, hg1]
  have hlen2 :
      ((t.insert (Symbol.Local x v1)).insert (Symbol.Local x v2)).buckets.length
      = t.buckets.length := by
    rw [hb2, List.length_set, hlen1]
  have hg2 : ((t.insert (Symbol.Local x v1)).insert
        (Symbol.Local x v2)).buckets.getD (t.hash x) []
      = Symbol.Local x v2 :: Symbol.Local x v1 :: t.buckets.getD (t.hash x) [] := by
    rw [hb2]
    exact getD_set_self _ _ _ _ (by rw [hlen1]; exact hlt)
  constructor
  · rw [get_eq_getChain, e2, hg2]
    simp [getChain, Symbol.name]
  · have e3 :
        ((((t.insert (Symbol.Local x v1)).insert (Symbol.Local x v2)).remove x)).hash x
        = t.hash x :=
      (hash_congr_len _ _ x (len_remove _ x)).trans e2
    have hb3 :
        ((((t.insert (Symbol.Local x v1)).insert (Symbol.Local x v2)).remove x)).buckets
        = ((t.insert (Symbol.Local x v1)).insert (Symbol.Local x v2)).buckets.set
            (t.hash x) (Symbol.Local x v1 :: t.buckets.getD (t.hash x) []) := by
      rw [remove_buckets, e2, hg2]
      congr 1
      simp [removeChain, Symbol.name]
    have hg3 :
        ((((t.insert (Symbol.Local x v1)).insert
            (Symbol.Local x v2)).remove x)).buckets.getD (t.hash x) []
        = Symbol.Local x v1 :: t.buckets.getD (t.hash x) [] := by
      rw [hb3]
      exact getD_set_self _ _ _ _ (by rw [hlen2]; exact hlt)
    rw [get_eq_getChain, e3, hg3]
    simp [getChain, Symbol.name]

/-- Witness for C2: capacity-1 table, name "x", v1 = None, v2 = constant 7. -/
theorem c2_shadowing_witness :
    (((SymbolTable.new 1).insert (Symbol.Local "x" .None)).insert
        (Symbol.Local "x" (LLVMValue.Constant (Constant.Integer 7)))).get "x"
      = .ok (Symbol.Local "x" (LLVMValue.Constant (Constant.Integer 7))) ∧
    ((((SymbolTable.new 1).insert (Symbol.Local "x" .None)).insert
        (Symbol.Local "x" (LLVMValue.Constant (Constant.Integer 7)))).remove "x").get "x"
      = .ok (Symbol.Local "x" .None) :=
  c2_shadowing (SymbolTable.new 1) "x" .None
    (LLVMValue.Constant (Constant.Integer 7)) (by decide)

/-- C3 (amended): for every table of capacity > 0 and every name, the hash
is deterministic and lies in [0, capacity); and provided capacity ≤ 2^32 it
equals the spec's pure stepwise-modular fold.  The bound is forced by the
wrapping 64-bit arithmetic of the source, which falsifies the exact
stepwise identity at larger capacities. -/
theorem c3_hash_range_and_fold (t : SymbolTable) (s : String) (h0 : 0 < t.len) :
    t.hash s < t.len ∧ (t.len ≤ 2 ^ 32 → t.hash s = specHash t.len s) :=
  ⟨hashFn_lt t.len s h0, fun hcap => hashFn_eq_specHash t.len s h0 hcap⟩

/-- C3 counterexample: at capacity 2^63 - 1 the code's u64-wrapping hash
differs from the pure stepwise-modular fold of the spec on a 9-character
name made of the largest scalar value. -/
theorem c3_counterexample_wraparound :
    hashFn (2 ^ 63 - 1) (String.mk (List.replicate 9 (Char.ofNat 1114111)))
      ≠ specHash (2 ^ 63 - 1) (String.mk (List.replicate 9 (Char.ofNat 1114111))) := by
  decide

/-- Witness for C3 at capacity 8 and name "a". -/
theorem c3_hash_range_and_fold_witness :
    (SymbolTable.new 8).hash "a" < 8 ∧
    (SymbolTable.new 8).hash "a" = specHash 8 "a" :=
  ⟨(c3_hash_range_and_fold (SymbolTable.new 8) "a" (by decide)).1,
   (c3_hash_range_and_fold (SymbolTable.new 8) "a" (by decide)).2 (by decide)⟩

/-- C9: a table built by new(c) has len() = c, and len() still equals c
after every sequence of insert, get, get_mut (including writing through its
reference), and remove operations: the bucket capacity is fixed at
construction and len() reports it, never the element count. -/
theorem c9_len_reports_capacity (c : Nat) (ops : List TableOp) :
    (SymbolTable.new c).len = c ∧
    (ops.foldl SymbolTable.applyOp (SymbolTable.new c)).len = c := by
  refine ⟨len_new c, ?_⟩
  rw [len_foldOps ops (SymbolTable.new c), len_new c]

end Rua
